import Mathlib

/-!
Verification of the numint adaptive step-size controller
(`src/include/solver/stepper_adaptive_rk4.hpp`) and the trapezoidal stepper
(`src/include/numint/stepper/stepper_trapezoidal.hpp`).

Modelling choices:
* C++ `double` values are embedded as real numbers (`ℝ`); `std::pow(x, 0.2)`
  becomes `Real.rpow x 0.2`, `std::min`/`std::max` become `min`/`max`, and
  `std::abs` becomes `|·|`.
* The state vector type `State` is embedded as `List ℝ`; `_state[i]` becomes
  `List.getD state i 0` (all accesses in the source are within bounds).
* The underlying fixed-step Runge-Kutta integrator `stepper_rk4` (included
  from `stepper_rk4.hpp`, not part of the sources under verification) is an
  external collaborator; following the spec it is modelled as an abstract
  step function `integ : List ℝ → ℝ → ℝ → List ℝ` mapping
  (state, time, step size) to the new state.  All theorems about the adaptive
  controller hold for every such function.
* A C++ in-place mutating call `stepper.do_step(system, x, t, dt)` becomes
  the pure update `x := integ x t dt`.
-/

namespace Numint

/-- Session state of `solver::stepper_adaptive_rk4`, keeping the fields in the
order of the C++ member declarations (the two `stepper_rk4` members carry no
data that influences the controller, so they are not modelled; the
deterministic step function is passed explicitly instead). -/
structure AdaptiveRK4 where
  state : List ℝ
  tollerance : ℝ
  time_delta : ℝ
  time : ℝ

/-- Embedding of the constructor `stepper_adaptive_rk4(tollerance)`: the state
is default-constructed (empty), `_time_delta` is `1e-12` and `_time` is `0`. -/
def AdaptiveRK4.mk' (tollerance : ℝ) : AdaptiveRK4 :=
  { state := [], tollerance := tollerance, time_delta := 1e-12, time := 0 }

/-- Embedding of the member function that seeds state, time and step size for
a run (C++ lines 39-44): it overwrites `_state`, `_time` and `_time_delta`
and touches nothing else. -/
def AdaptiveRK4.init (s : AdaptiveRK4) (state : List ℝ) (time time_delta : ℝ) :
    AdaptiveRK4 :=
  { s with state := state, time := time, time_delta := time_delta }

/-- Accessor `current_state`. -/
def AdaptiveRK4.current_state (s : AdaptiveRK4) : List ℝ := s.state

/-- Accessor `current_time_step`. -/
def AdaptiveRK4.current_time_step (s : AdaptiveRK4) : ℝ := s.time_delta

/-- Accessor `current_time`. -/
def AdaptiveRK4.current_time (s : AdaptiveRK4) : ℝ := s.time

/-- Embedding of the truncation-error loop (C++ lines 88-96, the
`flag == 0` branch that the dead compile-time dispatch always selects):
`t_err` starts at `0`, and for each index `i` below `_state.size()` it is
replaced by `err = |_state[i] - _y0[i]|` whenever `err > t_err` — i.e. by
`max err t_err`.  Here `b` plays the role of `_state` (candidate B after the
two half steps) and `a` the role of `_y0` (candidate A). -/
noncomputable def truncError (b a : List ℝ) : ℝ :=
  (List.range b.length).foldl (fun t_err i => max |b.getD i 0 - a.getD i 0| t_err) 0

/-- Embedding of the zero-guard (C++ lines 113-115): a truncation error of
exactly zero is replaced by `1e-15` before it is used in the division. -/
noncomputable def flooredError (b a : List ℝ) : ℝ :=
  if truncError b a = 0 then 1e-15 else truncError b a

/-- Candidate A (C++ lines 75-77): one run of the single-step integrator over
the full step duration, starting from the pre-call state and time. -/
def candA (integ : List ℝ → ℝ → ℝ → List ℝ) (s : AdaptiveRK4) : List ℝ :=
  integ s.state s.time s.time_delta

/-- Candidate B (C++ lines 81-82): two runs of the single-step integrator over
half the step duration each, the first starting at the pre-call state and
time, the second continuing from the first half's result at `t + dt * 0.5`. -/
def candB (integ : List ℝ → ℝ → ℝ → List ℝ) (s : AdaptiveRK4) : List ℝ :=
  integ (integ s.state s.time (s.time_delta * 0.5))
    (s.time + s.time_delta * 0.5) (s.time_delta * 0.5)

/-- Embedding of the parameterless `do_step(system)` (C++ lines 72-119),
written in the order of the source: copy `_state` into `_y0` and advance the
copy by one full step (candidate A), advance `_state` by two half steps
(candidate B), advance the time by the full step, compute the truncation
error of the two candidates, floor it, and recompute `_time_delta` as
`0.9 * _time_delta * min(max(pow(_tollerance / (2 * t_err), 0.2), 0.3), 1.5)`. -/
noncomputable def AdaptiveRK4.do_step (integ : List ℝ → ℝ → ℝ → List ℝ)
    (s : AdaptiveRK4) : AdaptiveRK4 :=
  let y0 := integ s.state s.time s.time_delta
  let state' := integ (integ s.state s.time (s.time_delta * 0.5))
    (s.time + s.time_delta * 0.5) (s.time_delta * 0.5)
  let time' := s.time + s.time_delta
  let t_err := flooredError state' y0
  { state := state'
    tollerance := s.tollerance
    time_delta :=
      0.9 * s.time_delta * min (max (Real.rpow (s.tollerance / (2 * t_err)) 0.2) 0.3) 1.5
    time := time' }

/-- Modelled from the spec: `numint::detail::it_algebra::accumulate_operation`
lives in `it_algebra.hpp`, which is not among the sources under verification.
Per the spec's contract ("state vector is overwritten in place with the
estimate at `t + dt`") and the in-source formula comment
`x(t + dt) = x(t) + (0.5 * dt * dxdt_start) + (0.5 * dt * dxdt_end)`, the
call `accumulate_operation(x.begin(), x.end(), multiplies, a, it1, b, it2)`
updates every component `x[i]` to `x[i] + a * it1[i] + b * it2[i]`. -/
def accumulate_operation (x : List ℝ) (a : ℝ) (d1 : List ℝ) (b : ℝ)
    (d2 : List ℝ) : List ℝ :=
  (List.range x.length).map (fun i => x.getD i 0 + a * d1.getD i 0 + b * d2.getD i 0)

/-- Fields of `numint::stepper_trapezoidal` in declaration order: the two
derivative scratch buffers and the step counter (`unsigned long`, embedded as
`ℕ`; the source never lets it wrap). -/
structure Trapezoidal where
  m_dxdt_start : List ℝ
  m_dxdt_end : List ℝ
  m_steps : ℕ

/-- Order reported by `stepper_trapezoidal::order_step` (constant `1`). -/
def Trapezoidal.order_step (_st : Trapezoidal) : ℕ := 1

/-- Accessor `steps`: number of integration steps executed so far. -/
def Trapezoidal.steps (st : Trapezoidal) : ℕ := st.m_steps

/-- Embedding of `stepper_trapezoidal::do_step` (C++ lines 81-99).  The system
function `system(x, out, t)` writes the derivative of `x` at time `t` into
`out`; it is embedded as the pure `f : List ℝ → ℝ → List ℝ`.  The C++ call
mutates the stepper (scratch buffers, step counter) and the state vector `x`
in place; the embedding returns the pair (new stepper, new `x`). -/
def Trapezoidal.do_step (f : List ℝ → ℝ → List ℝ) (st : Trapezoidal)
    (x : List ℝ) (t dt : ℝ) : Trapezoidal × List ℝ :=
  let dxdt_start := f x t
  let dxdt_end := f x (t + dt)
  let x' := accumulate_operation x (0.5 * dt) dxdt_start (0.5 * dt) dxdt_end
  ({ m_dxdt_start := dxdt_start, m_dxdt_end := dxdt_end,
     m_steps := st.m_steps + 1 }, x')

/-- Identity step function, used as a concrete single-step integrator when
instantiating the controller theorems (it models integrating the trivial
system `dx/dt = 0`, for which every explicit method returns the state
unchanged). -/
def idInteg : List ℝ → ℝ → ℝ → List ℝ := fun x _ _ => x

/-- Concrete controller session used to instantiate theorems: state `[1, 2]`,
tolerance `1`, step size `1`, time `0`. -/
def sW : AdaptiveRK4 :=
  { state := [1, 2], tollerance := 1, time_delta := 1, time := 0 }

/-- Concrete trapezoidal stepper with empty scratch buffers and zero steps. -/
def trapW : Trapezoidal := { m_dxdt_start := [], m_dxdt_end := [], m_steps := 0 }

/-- Concrete system function `dx/dt = x`, used to instantiate the
trapezoidal-stepper theorems. -/
def idSys : List ℝ → ℝ → List ℝ := fun x _ => x

/-!  General lemmas about the `foldl max` pattern of the truncation-error
loop, and about `List.getD` on mapped ranges. -/

lemma foldl_max_init_le (g : ℕ → ℝ) (l : List ℕ) (init : ℝ) :
    init ≤ l.foldl (fun t i => max (g i) t) init := by
  induction l generalizing init with
  | nil => exact le_refl _
  | cons x xs ih => exact le_trans (le_max_right (g x) init) (ih (max (g x) init))

lemma foldl_max_le_of_mem (g : ℕ → ℝ) (l : List ℕ) (init : ℝ) (i : ℕ) (hi : i ∈ l) :
    g i ≤ l.foldl (fun t i => max (g i) t) init := by
  induction l generalizing init with
  | nil => cases hi
  | cons x xs ih =>
    rcases List.mem_cons.mp hi with h | h
    · subst h
      exact le_trans (le_max_left (g i) init) (foldl_max_init_le g xs _)
    · exact ih _ h

lemma foldl_max_cases (g : ℕ → ℝ) (l : List ℕ) (init : ℝ) :
    l.foldl (fun t i => max (g i) t) init = init ∨
      ∃ i ∈ l, l.foldl (fun t i => max (g i) t) init = g i := by
  induction l generalizing init with
  | nil => exact Or.inl rfl
  | cons x xs ih =>
    rcases ih (max (g x) init) with h | ⟨i, hi, h⟩
    · rcases max_choice (g x) init with hm | hm
      · exact Or.inr ⟨x, List.mem_cons_self x xs, by rw [List.foldl_cons, h, hm]⟩
      · exact Or.inl (by rw [List.foldl_cons, h, hm])
    · exact Or.inr ⟨i, List.mem_cons_of_mem x hi, h⟩

lemma foldl_max_eq_init (g : ℕ → ℝ) (l : List ℕ) (init : ℝ)
    (h : ∀ i ∈ l, g i ≤ init) :
    l.foldl (fun t i => max (g i) t) init = init := by
  induction l with
  | nil => rfl
  | cons x xs ih =>
    rw [List.foldl_cons, max_eq_right (h x (List.mem_cons_self x xs))]
    exact ih (fun i hi => h i (List.mem_cons_of_mem x hi))

lemma getD_map_range (g : ℕ → ℝ) (n i : ℕ) (h : i < n) :
    ((List.range n).map g).getD i 0 = g i := by
  rw [List.getD_eq_getElem?_getD]
  simp [List.getElem?_map, List.getElem?_range, h]

/-!  Facts about the truncation error of the dead-branch absolute norm. -/

lemma truncError_nonneg (b a : List ℝ) : 0 ≤ truncError b a :=
  foldl_max_init_le (fun j => |b.getD j 0 - a.getD j 0|) (List.range b.length) 0

lemma le_truncError (b a : List ℝ) (i : ℕ) (hi : i < b.length) :
    |b.getD i 0 - a.getD i 0| ≤ truncError b a :=
  foldl_max_le_of_mem (fun j => |b.getD j 0 - a.getD j 0|) (List.range b.length) 0
    i (List.mem_range.mpr hi)

lemma truncError_attained (b a : List ℝ) (h : 0 < b.length) :
    ∃ i, i < b.length ∧ truncError b a = |b.getD i 0 - a.getD i 0| := by
  rcases foldl_max_cases (fun i => |b.getD i 0 - a.getD i 0|)
      (List.range b.length) 0 with h0 | ⟨i, hi, hEq⟩
  · refine ⟨0, h, ?_⟩
    have h1 := le_truncError b a 0 h
    have h2 : truncError b a = 0 := h0
    have h3 : 0 ≤ |b.getD 0 0 - a.getD 0 0| := abs_nonneg _
    rw [h2] at h1 ⊢
    linarith
  · exact ⟨i, List.mem_range.mp hi, hEq⟩

lemma truncError_eq_zero (b a : List ℝ)
    (h : ∀ i, i < b.length → b.getD i 0 = a.getD i 0) :
    truncError b a = 0 :=
  foldl_max_eq_init (fun j => |b.getD j 0 - a.getD j 0|) (List.range b.length) 0
    (fun i hi => by
      show |b.getD i 0 - a.getD i 0| ≤ 0
      rw [h i (List.mem_range.mp hi)]
      simp)

/-!  Projection facts about one controller call. -/

lemma do_step_state (integ : List ℝ → ℝ → ℝ → List ℝ) (s : AdaptiveRK4) :
    (s.do_step integ).state = candB integ s := rfl

lemma do_step_time (integ : List ℝ → ℝ → ℝ → List ℝ) (s : AdaptiveRK4) :
    (s.do_step integ).time = s.time + s.time_delta := rfl

lemma do_step_tollerance (integ : List ℝ → ℝ → ℝ → List ℝ) (s : AdaptiveRK4) :
    (s.do_step integ).tollerance = s.tollerance := rfl

lemma do_step_time_delta (integ : List ℝ → ℝ → ℝ → List ℝ) (s : AdaptiveRK4) :
    (s.do_step integ).time_delta =
      0.9 * s.time_delta *
        min (max (Real.rpow (s.tollerance /
          (2 * flooredError (candB integ s) (candA integ s))) 0.2) 0.3) 1.5 := rfl

lemma clamp_lower (p : ℝ) : (0.3 : ℝ) ≤ min (max p 0.3) 1.5 :=
  le_min (le_max_right _ _) (by norm_num)

lemma clamp_upper (p : ℝ) : min (max p 0.3) 1.5 ≤ (1.5 : ℝ) :=
  min_le_right _ _

lemma do_step_dt_pos (integ : List ℝ → ℝ → ℝ → List ℝ) (s : AdaptiveRK4)
    (h : 0 < s.time_delta) : 0 < (s.do_step integ).time_delta := by
  rw [do_step_time_delta]
  have hc := clamp_lower (Real.rpow
    (s.tollerance / (2 * flooredError (candB integ s) (candA integ s))) 0.2)
  have h09 : (0 : ℝ) < 0.9 := by norm_num
  nlinarith

/-- C1: for every invocation of the adaptive controller's step operation,
with tolerance `tol`, floored error estimate `e`, and the step size `dt` in
effect at the start of the call, the step size stored for the next call
equals `0.9 * dt * min(max((tol / (2 * e)) ^ 0.2, 0.3), 1.5)`. -/
theorem adaptive_new_dt_formula (integ : List ℝ → ℝ → ℝ → List ℝ)
    (s : AdaptiveRK4) :
    (s.do_step integ).time_delta =
      0.9 * s.time_delta *
        min (max (Real.rpow (s.tollerance /
          (2 * flooredError (candB integ s) (candA integ s))) 0.2) 0.3) 1.5 :=
  do_step_time_delta integ s

/-- C3: candidate A is one full-duration single step from the pre-call state,
candidate B is two half-duration single steps (the second continuing from the
first at `t + dt/2`), the post-call session state equals candidate B, and
candidate A enters the result only through the error comparison inside the
step-size update. -/
theorem adaptive_candidates (integ : List ℝ → ℝ → ℝ → List ℝ)
    (s : AdaptiveRK4) :
    candA integ s = integ s.state s.time s.time_delta ∧
    candB integ s =
      integ (integ s.state s.time (s.time_delta * 0.5))
        (s.time + s.time_delta * 0.5) (s.time_delta * 0.5) ∧
    (s.do_step integ).state = candB integ s ∧
    (s.do_step integ).time_delta =
      0.9 * s.time_delta *
        min (max (Real.rpow (s.tollerance /
          (2 * flooredError (candB integ s) (candA integ s))) 0.2) 0.3) 1.5 :=
  ⟨rfl, rfl, rfl, rfl⟩

/-- C2: the error estimate computed before flooring is the absolute
infinity norm of the difference of the two candidates: it is an upper bound
of every per-component absolute difference `|B[i] - A[i]|` and is attained at
some component. -/
theorem adaptive_error_is_infnorm (integ : List ℝ → ℝ → ℝ → List ℝ)
    (s : AdaptiveRK4) (h : 0 < (candB integ s).length) :
    (∀ i, i < (candB integ s).length →
      |(candB integ s).getD i 0 - (candA integ s).getD i 0| ≤
        truncError (candB integ s) (candA integ s)) ∧
    ∃ i, i < (candB integ s).length ∧
      truncError (candB integ s) (candA integ s) =
        |(candB integ s).getD i 0 - (candA integ s).getD i 0| :=
  ⟨fun i hi => le_truncError _ _ i hi, truncError_attained _ _ h⟩

/-- C4: when candidate A and candidate B agree in every component, the error
estimate used in the step-size formula is exactly `1e-15` rather than `0`,
and the recomputed step size uses the division by `2 * 1e-15`. -/
theorem adaptive_error_floor (integ : List ℝ → ℝ → ℝ → List ℝ)
    (s : AdaptiveRK4)
    (h : ∀ i, i < (candB integ s).length →
      (candB integ s).getD i 0 = (candA integ s).getD i 0) :
    flooredError (candB integ s) (candA integ s) = 1e-15 ∧
    (s.do_step integ).time_delta =
      0.9 * s.time_delta *
        min (max (Real.rpow (s.tollerance / (2 * 1e-15)) 0.2) 0.3) 1.5 := by
  have hz : truncError (candB integ s) (candA integ s) = 0 :=
    truncError_eq_zero _ _ h
  have hfl : flooredError (candB integ s) (candA integ s) = 1e-15 := by
    rw [flooredError, if_pos hz]
  exact ⟨hfl, by rw [do_step_time_delta, hfl]⟩

/-- C5: for every invocation of the step operation starting from a strictly
positive step size, the ratio between the stored next step size and the step
size in effect before the call lies within `[0.27, 1.35]`. -/
theorem adaptive_dt_ratio_bounds (integ : List ℝ → ℝ → ℝ → List ℝ)
    (s : AdaptiveRK4) (h : 0 < s.time_delta) :
    0.27 ≤ (s.do_step integ).time_delta / s.time_delta ∧
      (s.do_step integ).time_delta / s.time_delta ≤ 1.35 := by
  rw [do_step_time_delta]
  set c := min (max (Real.rpow (s.tollerance /
    (2 * flooredError (candB integ s) (candA integ s))) 0.2) 0.3) 1.5 with hc
  have hlo : (0.3 : ℝ) ≤ c := clamp_lower _
  have hhi : c ≤ (1.5 : ℝ) := clamp_upper _
  have hne : s.time_delta ≠ 0 := ne_of_gt h
  have hdiv : 0.9 * s.time_delta * c / s.time_delta = 0.9 * c := by
    field_simp
    ring
  rw [hdiv]
  constructor <;> linarith

/-- C6: a controller constructed with a positive tolerance and seeded with a
strictly positive step size reports a strictly positive step size after any
number of step invocations. -/
theorem adaptive_dt_pos (integ : List ℝ → ℝ → ℝ → List ℝ)
    (tol : ℝ) (x0 : List ℝ) (t0 dt0 : ℝ)
    (htol : 0 < tol) (hdt : 0 < dt0) (k : ℕ) :
    0 < ((AdaptiveRK4.do_step integ)^[k]
      ((AdaptiveRK4.mk' tol).init x0 t0 dt0)).current_time_step := by
  induction k with
  | zero => exact hdt
  | succ n ih =>
    rw [Function.iterate_succ_apply']
    exact do_step_dt_pos integ _ ih

/-- C7: each step invocation advances the session time by exactly the step
size in effect before that call's recomputation, and after `k` calls the
session time equals the initial time plus the sum of the step sizes in effect
at the start of each call. -/
theorem adaptive_time_advance (integ : List ℝ → ℝ → ℝ → List ℝ)
    (s : AdaptiveRK4) :
    (∀ s' : AdaptiveRK4, (s'.do_step integ).time = s'.time + s'.time_delta) ∧
    ∀ k : ℕ, ((AdaptiveRK4.do_step integ)^[k] s).time =
      s.time + ∑ i ∈ Finset.range k,
        ((AdaptiveRK4.do_step integ)^[i] s).time_delta := by
  refine ⟨fun s' => do_step_time integ s', fun k => ?_⟩
  induction k with
  | zero => simp
  | succ n ih =>
    rw [Function.iterate_succ_apply', do_step_time, ih, Finset.sum_range_succ]
    ring

/-- C8: the tolerance field is fixed at construction: seeding a run and any
number of step invocations leave it unchanged, and the read-only accessors
return the session fields without modifying anything. -/
theorem adaptive_tollerance_frame (integ : List ℝ → ℝ → ℝ → List ℝ)
    (tol : ℝ) (x0 : List ℝ) (t0 dt0 : ℝ) (s : AdaptiveRK4) :
    ((AdaptiveRK4.mk' tol).init x0 t0 dt0).tollerance = tol ∧
    (s.init x0 t0 dt0).tollerance = s.tollerance ∧
    (s.do_step integ).tollerance = s.tollerance ∧
    (∀ k : ℕ, ((AdaptiveRK4.do_step integ)^[k] s).tollerance = s.tollerance) ∧
    s.current_state = s.state ∧
    s.current_time = s.time ∧
    s.current_time_step = s.time_delta := by
  refine ⟨rfl, rfl, rfl, fun k => ?_, rfl, rfl, rfl⟩
  induction k with
  | zero => rfl
  | succ n ih =>
    rw [Function.iterate_succ_apply', do_step_tollerance, ih]

/-- C9: one trapezoidal `do_step` overwrites the state vector in place with
the estimate at `t + dt` (keeping its length), increments the internal step
counter by exactly one, and changes no other publicly visible quantity (the
reported order is a constant). -/
theorem trapezoidal_frame (f : List ℝ → ℝ → List ℝ) (st : Trapezoidal)
    (x : List ℝ) (t dt : ℝ) :
    (st.do_step f x t dt).2 =
      accumulate_operation x (0.5 * dt) (f x t) (0.5 * dt) (f x (t + dt)) ∧
    (st.do_step f x t dt).2.length = x.length ∧
    (st.do_step f x t dt).1.steps = st.steps + 1 ∧
    (st.do_step f x t dt).1.order_step = st.order_step := by
  refine ⟨rfl, ?_, rfl, rfl⟩
  show (accumulate_operation x (0.5 * dt) (f x t) (0.5 * dt)
    (f x (t + dt))).length = x.length
  rw [accumulate_operation, List.length_map, List.length_range]

/-- C10: both derivative samples of the trapezoidal step are taken at the
un-advanced input state `x` (at times `t` and `t + dt`), and each component
of the new state equals
`x[i] + 0.5 * dt * f(x, t)[i] + 0.5 * dt * f(x, t + dt)[i]`. -/
theorem trapezoidal_component_formula (f : List ℝ → ℝ → List ℝ)
    (st : Trapezoidal) (x : List ℝ) (t dt : ℝ) (i : ℕ) (hi : i < x.length) :
    (st.do_step f x t dt).1.m_dxdt_start = f x t ∧
    (st.do_step f x t dt).1.m_dxdt_end = f x (t + dt) ∧
    (st.do_step f x t dt).2.getD i 0 =
      x.getD i 0 + 0.5 * dt * (f x t).getD i 0 +
        0.5 * dt * (f x (t + dt)).getD i 0 := by
  refine ⟨rfl, rfl, ?_⟩
  show (accumulate_operation x (0.5 * dt) (f x t) (0.5 * dt)
    (f x (t + dt))).getD i 0 = _
  rw [accumulate_operation]
  exact getD_map_range _ _ i hi

/-- Witness for C2: a concrete session with a two-component state, on which
the hypotheses of the infinity-norm characterization hold. -/
theorem adaptive_error_is_infnorm_witness :
    0 < (candB idInteg sW).length ∧
    ((∀ i, i < (candB idInteg sW).length →
      |(candB idInteg sW).getD i 0 - (candA idInteg sW).getD i 0| ≤
        truncError (candB idInteg sW) (candA idInteg sW)) ∧
    ∃ i, i < (candB idInteg sW).length ∧
      truncError (candB idInteg sW) (candA idInteg sW) =
        |(candB idInteg sW).getD i 0 - (candA idInteg sW).getD i 0|) :=
  ⟨by decide, adaptive_error_is_infnorm idInteg sW (by decide)⟩

/-- Witness for C4: with the trivial integrator the two candidates agree
componentwise, and the floored error is exactly `1e-15`. -/
theorem adaptive_error_floor_witness :
    (∀ i, i < (candB idInteg sW).length →
      (candB idInteg sW).getD i 0 = (candA idInteg sW).getD i 0) ∧
    (flooredError (candB idInteg sW) (candA idInteg sW) = 1e-15 ∧
    (sW.do_step idInteg).time_delta =
      0.9 * sW.time_delta *
        min (max (Real.rpow (sW.tollerance / (2 * 1e-15)) 0.2) 0.3) 1.5) :=
  ⟨fun _ _ => rfl, adaptive_error_floor idInteg sW (fun _ _ => rfl)⟩

/-- Witness for C5: a concrete session with step size `1 > 0`; the ratio
bounds hold after one call. -/
theorem adaptive_dt_ratio_bounds_witness :
    0 < sW.time_delta ∧
    (0.27 ≤ (sW.do_step idInteg).time_delta / sW.time_delta ∧
      (sW.do_step idInteg).time_delta / sW.time_delta ≤ 1.35) :=
  ⟨by norm_num [sW], adaptive_dt_ratio_bounds idInteg sW (by norm_num [sW])⟩

/-- Witness for C6: tolerance `1 > 0`, seeded step size `1 > 0`, three step
invocations. -/
theorem adaptive_dt_pos_witness :
    (0 : ℝ) < 1 ∧ (0 : ℝ) < 1 ∧
    0 < ((AdaptiveRK4.do_step idInteg)^[3]
      ((AdaptiveRK4.mk' 1).init [1, 2] 0 1)).current_time_step :=
  ⟨by norm_num, by norm_num,
    adaptive_dt_pos idInteg 1 [1, 2] 0 1 (by norm_num) (by norm_num) 3⟩

/-- Witness for C10: concrete two-component state `[1, 2]` and index `0`. -/
theorem trapezoidal_component_formula_witness :
    0 < ([1, 2] : List ℝ).length ∧
    ((trapW.do_step idSys [1, 2] 0 1).1.m_dxdt_start = idSys [1, 2] 0 ∧
    (trapW.do_step idSys [1, 2] 0 1).1.m_dxdt_end = idSys [1, 2] (0 + 1) ∧
    (trapW.do_step idSys [1, 2] 0 1).2.getD 0 0 =
      ([1, 2] : List ℝ).getD 0 0 + 0.5 * 1 * (idSys [1, 2] 0).getD 0 0 +
        0.5 * 1 * (idSys [1, 2] (0 + 1)).getD 0 0) :=
  ⟨by decide, trapezoidal_component_formula idSys trapW [1, 2] 0 1 0 (by decide)⟩

end Numint
